import Mathlib

/-!
Verification of the YAML-to-SQL data compiler of the blt-cli repository.

The definitions below are a shallow embedding of the TypeScript sources
`yaml-converter.ts` (environment substitution, value formatting, YAML row
extraction, target detection, SQL generation) and `sql-builder.ts`
(`getSortedSqlFiles`).  JavaScript dynamic values are embedded as the
inductive `JsValue`; JavaScript numbers are embedded as rationals (every
JavaScript number prints and reads back as a finite decimal, which is the
fragment the rational model covers); the process environment is an explicit
lookup function.  Machine strings are Lean `String`s, processed char by
char where the source uses regular expressions.
-/

/-! ### Decimal printing of numbers -/

/-- The character of a decimal digit (`0 ↦ '0'`, …, `9 ↦ '9'`). -/
def digitChar (d : Nat) : Char := Char.ofNat (48 + d)

/-- Fuel-driven base-10 digit list (least significant first); the fuel makes
the recursion structural so that the kernel can evaluate it. -/
def natDigitsGo : Nat → Nat → List Nat
  | _, 0 => []
  | 0, _ => []
  | fuel + 1, n + 1 => (n + 1) % 10 :: natDigitsGo fuel ((n + 1) / 10)

/-- Base-10 digits of `n`, least significant first (agrees with `Nat.digits 10`). -/
def natDigits (n : Nat) : List Nat := natDigitsGo n n

/-- The decimal numeral of `n`, most significant digit first; `0` prints as `"0"`. -/
def natToChars (n : Nat) : List Char :=
  if n = 0 then ['0'] else ((natDigits n).map digitChar).reverse

/-- The smallest exponent `k ≤ d` with `d ∣ 10 ^ k`, when one exists (it does
exactly when `d` has no prime factor other than 2 and 5). -/
def decExp (d : Nat) : Option Nat := (List.range (d + 1)).find? (fun k => 10 ^ k % d == 0)

/-- Embedding of JavaScript number-to-string conversion (`String(value)` and
template-literal interpolation) on the rational model: integers print with no
decimal point, other finite-decimal rationals print their shortest exact
decimal expansion, negative values with a leading minus sign.  The `none`
fallback is never reached for a value a JavaScript number can denote. -/
def jsNumToString (q : ℚ) : String :=
  let sign : String := if q.num < 0 then "-" else ""
  match decExp q.den with
  | some 0 => sign ++ ⟨natToChars q.num.natAbs⟩
  | some (k + 1) =>
    let scaled := q.num.natAbs * (10 ^ (k + 1) / q.den)
    let fracChars := natToChars (scaled % 10 ^ (k + 1))
    sign ++ ⟨natToChars (scaled / 10 ^ (k + 1))⟩ ++ "." ++
      ⟨List.replicate (k + 1 - fracChars.length) '0' ++ fracChars⟩
  | none => sign ++ ⟨natToChars q.num.natAbs⟩

/-- `Number.isInteger` on the rational model. -/
def jsIsInteger (q : ℚ) : Bool := q.den == 1

/-! ### String helpers from the source -/

/-- Char-level body of `escapeString`: double every single quote. -/
def escapeChars (s : List Char) : List Char :=
  s.flatMap (fun c => if c = '\'' then [c, c] else [c])

/-- `escapeString(str)`: `str.replace(/'/g, "''")`. -/
def escapeString (s : String) : String := ⟨escapeChars s.data⟩

/-- `.replace(/\\/g, "\\\\")`: double every backslash (applied to JSON payloads
before quote doubling, as in the source). -/
def doubleBackslashes (s : String) : String :=
  ⟨s.data.flatMap (fun c => if c = '\\' then [c, c] else [c])⟩

/-- Char-level substring test: `sub` occurs contiguously in the second list. -/
def jsIncludesChars (sub : List Char) : List Char → Bool
  | [] => sub.isPrefixOf []
  | c :: rest => sub.isPrefixOf (c :: rest) || jsIncludesChars sub rest

/-- `s.includes(sub)` of JavaScript strings. -/
def jsIncludes (s sub : String) : Bool := jsIncludesChars sub.data s.data

/-- `String.prototype.toUpperCase`, restricted to the ASCII mapping (the only
case the source compares against is the ASCII word `"NULL"`). -/
def jsToUpperCase (s : String) : String := ⟨s.data.map Char.toUpper⟩

/-- The whitespace characters relevant to the embedded regular expressions
(`\s` restricted to the characters that occur in YAML text). -/
def isSpaceChar (c : Char) : Bool := c = ' ' || c = '\t' || c = '\n' || c = '\r'

/-- `String.prototype.trim` over that whitespace class. -/
def jsTrim (s : String) : String :=
  ⟨((s.data.dropWhile isSpaceChar).reverse.dropWhile isSpaceChar).reverse⟩

/-! ### The dynamic value model -/

/-- A JavaScript/YAML value as the compiler sees it: the result of `yaml.load`
restricted to JSON-like data.  Object fields are kept in insertion order,
which is the order `Object.keys`/`Object.entries` iterate for the string keys
the compiler handles. -/
inductive JsValue where
  | vNull
  | vBool (b : Bool)
  | vNum (q : ℚ)
  | vStr (s : String)
  | vArr (items : List JsValue)
  | vObj (fields : List (String × JsValue))

/-- One escaped character of a JSON string literal. -/
def jsonEscapeChar (c : Char) : List Char :=
  if c = '"' then ['\\', '"']
  else if c = '\\' then ['\\', '\\']
  else if c = '\n' then ['\\', 'n']
  else if c = '\r' then ['\\', 'r']
  else if c = '\t' then ['\\', 't']
  else if c.toNat = 8 then ['\\', 'b']
  else if c.toNat = 12 then ['\\', 'f']
  else if c.toNat < 32 then
    ['\\', 'u', '0', '0', digitChar (c.toNat / 16), digitChar (c.toNat % 16)]
  else [c]

/-- A JSON string literal: quoted, with standard escapes. -/
def jsonQuoteString (s : String) : String :=
  "\"" ++ ⟨s.data.flatMap jsonEscapeChar⟩ ++ "\""

mutual

/-- `JSON.stringify` on the value model (standard JSON escapes; fields and
elements in order, no spaces — as JavaScript emits with no indent argument). -/
def jsonStringify : JsValue → String
  | .vNull => "null"
  | .vBool b => if b then "true" else "false"
  | .vNum q => jsNumToString q
  | .vStr s => jsonQuoteString s
  | .vArr items => "[" ++ String.intercalate "," (jsonStringifyElems items) ++ "]"
  | .vObj fields => "\x7b" ++ String.intercalate "," (jsonStringifyFields fields) ++ "\x7d"

/-- The serialized elements of a JSON array, in order. -/
def jsonStringifyElems : List JsValue → List String
  | [] => []
  | v :: rest => jsonStringify v :: jsonStringifyElems rest

/-- The serialized `"key":value` members of a JSON object, in order. -/
def jsonStringifyFields : List (String × JsValue) → List String
  | [] => []
  | (k, v) :: rest => (jsonQuoteString k ++ ":" ++ jsonStringify v) :: jsonStringifyFields rest

end

mutual

/-- JavaScript `String(value)` on non-string primitives and containers
(arrays join their elements with commas, objects print `[object Object]`);
used by `toSqlLiteral` for non-string array items. -/
def jsToString : JsValue → String
  | .vNull => "null"
  | .vBool b => if b then "true" else "false"
  | .vNum q => jsNumToString q
  | .vStr s => s
  | .vArr items => String.intercalate "," (jsToStringElems items)
  | .vObj _ => "[object Object]"

/-- `Array.prototype.join(",")` elements: `null` joins as the empty string. -/
def jsToStringElems : List JsValue → List String
  | [] => []
  | v :: rest =>
    (match v with
     | .vNull => ""
     | v => jsToString v) :: jsToStringElems rest

end

/-! ### Value Formatter, table-literal context (`toSqlLiteral`) -/

/-- `toSqlLiteral(value, column?)`: format a value as a SQL literal for
`INSERT … VALUES`.  Branches in source order: null/undefined, the empty
string (`'{}'::json` for the `props` column, else `NULL`), strings (unquoted
`NULL` for the word NULL, else quoted and quote-doubled), booleans, numbers,
arrays (typed by the `perms`/`roles` column names), objects (JSON serialized,
backslashes then quotes doubled, cast `::json`). -/
def toSqlLiteral : JsValue → Option String → String
  | .vNull, _ => "NULL"
  | .vStr "", column => if column = some "props" then "'\x7b\x7d'::json" else "NULL"
  | .vStr s, _ => if jsToUpperCase s = "NULL" then "NULL" else "'" ++ escapeString s ++ "'"
  | .vBool b, _ => if b then "TRUE" else "FALSE"
  | .vNum q, _ => jsNumToString q
  | .vArr items, column =>
    let arrayType :=
      if column = some "perms" then "app_perm"
      else if column = some "roles" then "app_role" else "text"
    if items.length = 0 then "ARRAY[]::" ++ arrayType ++ "[]"
    else
      "ARRAY[" ++ String.intercalate ", " (items.map fun v =>
        match v with
        | .vStr s => "'" ++ escapeString s ++ "'"
        | v => jsToString v) ++ "]::" ++ arrayType ++ "[]"
  | .vObj fields, _ =>
    let json := escapeString (doubleBackslashes (jsonStringify (.vObj fields)))
    if fields.length = 0 then "'\x7b\x7d'::json" else "'" ++ json ++ "'::json"

/-! ### Value Formatter, typed-cast call-parameter context (`formatParam`) -/

/-- The source's column-name hint for numbers:
`columnName && (columnName.includes("order") || (columnName.includes("id") &&
!columnName.includes("uuid")))` — the conjunction with `columnName` itself is
JavaScript string truthiness, false for `undefined` and for the empty
string. -/
def columnHint (columnName : Option String) : Bool :=
  match columnName with
  | some c => !(c = "") && (jsIncludes c "order" || (jsIncludes c "id" && !jsIncludes c "uuid"))
  | none => false

mutual

/-- `formatParam(value, columnName?)`: format one function/procedure call
parameter with a type cast.  Branches in source order: null/undefined,
booleans (`::BOOLEAN`), numbers (`::INTEGER` on the column-name hint, else
`::INTEGER` for integers and `::NUMERIC` for other numbers), plain objects
(`jsonb_build_object(…)::JSONB` with each value formatted by a recursive call
that passes no column name), arrays (JSON stringified, escaped, `::JSONB`),
strings (unquoted NULL for the word NULL, else `::TEXT`). -/
def formatParam : JsValue → Option String → String
  | .vNull, _ => "NULL"
  | .vBool b, _ => if b then "TRUE::BOOLEAN" else "FALSE::BOOLEAN"
  | .vNum q, columnName =>
    if columnHint columnName then jsNumToString q ++ "::INTEGER"
    else if jsIsInteger q then jsNumToString q ++ "::INTEGER"
    else jsNumToString q ++ "::NUMERIC"
  | .vObj fields, _ =>
    if fields.length = 0 then "jsonb_build_object()::JSONB"
    else "jsonb_build_object(" ++ String.intercalate ", " (formatParamEntries fields) ++ ")::JSONB"
  | .vArr items, _ =>
    "'" ++ escapeString (doubleBackslashes (jsonStringify (.vArr items))) ++ "'::JSONB"
  | .vStr s, _ =>
    if jsToUpperCase s = "NULL" then "NULL" else "'" ++ escapeString s ++ "'::TEXT"

/-- The `'key', value` pairs of the `jsonb_build_object` call, in field order;
the recursive `formatParam` call passes no column name (source:
`formatParam(v)`). -/
def formatParamEntries : List (String × JsValue) → List String
  | [] => []
  | (k, v) :: rest => ("'" ++ escapeString k ++ "', " ++ formatParam v none) :: formatParamEntries rest

end

/-! ### SQL Statement Generator -/

/-- One extracted row: an ordered association of column/parameter names to
values (the TypeScript `{ row: Record<string, unknown> }` wrapper is
flattened away; `Object.keys` order is the list order). -/
abbrev RowRec := List (String × JsValue)

/-- `Object.keys(r.row)`. -/
def rowKeys (r : RowRec) : List String := r.map Prod.fst

/-- `r.row[col]`; a missing key (JavaScript `undefined`) is embedded as
`vNull`, which every formatter branch treats exactly as `undefined`. -/
def rowGet (r : RowRec) (col : String) : JsValue := (r.lookup col).getD .vNull

/-- `generateFunctionCalls(rows, functionName)`. -/
def generateFunctionCalls (rows : List RowRec) (functionName : String) : String :=
  let statements := rows.map fun r =>
    let columns := rowKeys r
    let params := columns.map fun col => formatParam (rowGet r col) (some col)
    "SELECT " ++ functionName ++ "(" ++ String.intercalate ", " params ++ ");"
  "-- Generated from JSON data\n" ++ String.intercalate "\n" statements

/-- `generateProcedureCalls(rows, procedureName)`. -/
def generateProcedureCalls (rows : List RowRec) (procedureName : String) : String :=
  let statements := rows.map fun r =>
    let columns := rowKeys r
    let params := columns.map fun col => formatParam (rowGet r col) (some col)
    "CALL " ++ procedureName ++ "(" ++ String.intercalate ", " params ++ ");"
  "-- Generated from JSON data\n" ++ String.intercalate "\n" statements

/-- `generateInsert(rows, tableName)`: one upsert statement; the column list
comes from the first row, the first column is the conflict key, every other
column gets a `COALESCE` update clause.  (`columns[0]` of an empty column
list is JavaScript `undefined`, which a template literal prints as the word
`undefined`; callers only pass non-empty row lists.) -/
def generateInsert (rows : List RowRec) (tableName : String) : String :=
  let columns := rowKeys (rows.headD [])
  let conflictColumn := columns.headD "undefined"
  let updateColumns := columns.tail
  let valueRows := rows.map fun r =>
    "(" ++ String.intercalate ", " (columns.map fun col => toSqlLiteral (rowGet r col) (some col)) ++ ")"
  let updateClauses := updateColumns.map fun col =>
    "    " ++ col ++ " = COALESCE(EXCLUDED." ++ col ++ ", " ++ tableName ++ "." ++ col ++ ")"
  String.intercalate "\n"
    ["-- Generated from JSON data",
     "INSERT INTO " ++ tableName ++ " (" ++ String.intercalate ", " columns ++ ") VALUES",
     String.intercalate ",\n" valueRows,
     "ON CONFLICT (" ++ conflictColumn ++ ") DO UPDATE SET",
     String.intercalate ",\n" updateClauses ++ ";"]

/-- The three target kinds a YAML document can describe. -/
inductive TargetType where
  | table
  | function
  | procedure
deriving DecidableEq

/-- `jsonToSql(rows, name, type)`: empty row lists short-circuit to the
`-- No rows to insert` comment before any generator runs. -/
def jsonToSql (rows : List RowRec) (name : String) (type : TargetType) : String :=
  if rows.length = 0 then "-- No rows to insert"
  else
    match type with
    | .function => generateFunctionCalls rows name
    | .procedure => generateProcedureCalls rows name
    | .table => generateInsert rows name

/-! ### Row Extractor -/

/-- `parseYamlRows`, over the already-deserialized top-level value (`yaml.load`
is the external YAML library; `none` embeds JavaScript `undefined`, the result
for an empty document): a top-level sequence is the row list; a mapping with a
sequence under `rows` yields that sequence; any other mapping is wrapped as a
single row; everything else gives no rows. -/
def parseYamlRows (parsed : Option JsValue) : List JsValue :=
  match parsed with
  | some (.vArr rows) => rows
  | some (.vObj fields) =>
    match fields.lookup "rows" with
    | some (.vArr rows) => rows
    | _ => [.vObj fields]
  | _ => []

/-! ### Target Detector

`detectTarget` applies the three patterns `/^function:\s*(.+)$/m`,
`/^procedure:\s*(.+)$/m`, `/^table:\s*(.+)$/m` in that fixed order.  The
regular expressions are embedded character by character; the only line
terminator of the model is the newline character. -/

/-- The suffix part `\s*(.+)$` of the key patterns, matched at a fixed
position: greedy whitespace, then at least one non-newline character up to
the end of the line.  When everything ahead is whitespace, backtracking
yields the last character that is not a newline (a space or tab), if any —
exactly the JavaScript engine's behaviour for these patterns. -/
def matchTail (s : List Char) : Option (List Char) :=
  let rest := s.dropWhile isSpaceChar
  if rest.length ≠ 0 then some (rest.takeWhile (fun c => c ≠ '\n'))
  else
    match (s.filter (fun c => c ≠ '\n')).getLast? with
    | some c => some [c]
    | none => none

/-- Attempt `key:` followed by `\s*(.+)$` at one line-start position. -/
def tryKeyAt (key : List Char) (s : List Char) : Option (List Char) :=
  if (key ++ [':']).isPrefixOf s then matchTail (s.drop (key.length + 1)) else none

/-- Scan the remaining text for the next line start (just after a newline)
where the key pattern matches; earliest match wins, as with a multiline
regular expression. -/
def scanKeyGo (key : List Char) : List Char → Option (List Char)
  | [] => none
  | c :: rest =>
    if c = '\n' then
      match tryKeyAt key rest with
      | some g => some g
      | none => scanKeyGo key rest
    else scanKeyGo key rest

/-- First match of `/^key:\s*(.+)$/m` over the whole text (group 1). -/
def scanKey (key : List Char) (s : List Char) : Option (List Char) :=
  match tryKeyAt key s with
  | some g => some g
  | none => scanKeyGo key s

/-- `detectTarget(yamlContent)`: the `function:` pattern, then `procedure:`,
then `table:`; the first match decides the type, and group 1 is trimmed for
the name. -/
def detectTarget (yamlContent : String) : Option (TargetType × String) :=
  match scanKey "function".data yamlContent.data with
  | some m => some (.function, jsTrim ⟨m⟩)
  | none =>
    match scanKey "procedure".data yamlContent.data with
    | some m => some (.procedure, jsTrim ⟨m⟩)
    | none =>
      match scanKey "table".data yamlContent.data with
      | some m => some (.table, jsTrim ⟨m⟩)
      | none => none

/-! ### Environment Substituter

`substituteEnvVars` is three successive global regex replaces:
`/\$\{([^}]+)\}/g`, then `/\{([A-Z_][A-Z0-9_]*)\}/g`, then
`/\$([A-Z_][A-Z0-9_]*)/gi`, each replacing a placeholder by
`process.env[name] ?? match` (an unset variable leaves the matched text
verbatim; a variable set to the empty string substitutes the empty string).
Each pass is embedded as a one-character-at-a-time scanner whose pending
state carries the partially read name in reverse; replacement text is never
rescanned by the pass that inserted it, matching `String.prototype.replace`. -/

/-- The environment: an explicit lookup replacing `process.env`. -/
abbrev EnvMap := String → Option String

/-- The replacement for one resolved pass-1 match of name `name`. -/
def dollarBraceValue (env : EnvMap) (name : List Char) : List Char :=
  (((env ⟨name⟩).map String.data).getD ('$' :: '\x7b' :: (name ++ ['\x7d'])))

/-- Scanner state of the dollar-prefixed passes: outside any candidate match;
just after a `$`; or inside a candidate name, carried in reverse. -/
inductive ScanState where
  | normal
  | sawDollar
  | pending (acc : List Char)

/-- Pass 1 scanner for `/\$\{([^}]+)\}/g`, one character per step. -/
def substDollarBraceGo (env : EnvMap) : List Char → ScanState → List Char
  | [], .normal => []
  | [], .sawDollar => ['$']
  | [], .pending acc => '$' :: '\x7b' :: acc.reverse
  | c :: rest, .normal =>
    if c = '$' then substDollarBraceGo env rest .sawDollar
    else c :: substDollarBraceGo env rest .normal
  | c :: rest, .sawDollar =>
    if c = '\x7b' then substDollarBraceGo env rest (.pending [])
    else if c = '$' then '$' :: substDollarBraceGo env rest .sawDollar
    else '$' :: c :: substDollarBraceGo env rest .normal
  | c :: rest, .pending acc =>
    if c = '\x7d' then
      match acc with
      | [] => '$' :: '\x7b' :: '\x7d' :: substDollarBraceGo env rest .normal
      | _ => dollarBraceValue env acc.reverse ++ substDollarBraceGo env rest .normal
    else substDollarBraceGo env rest (.pending (c :: acc))

/-- The `/\$\{([^}]+)\}/g` replace. -/
def substDollarBrace (env : EnvMap) (s : List Char) : List Char :=
  substDollarBraceGo env s .normal

/-- First character of a pass-2 name: `[A-Z_]`. -/
def isUpperFirst (c : Char) : Bool := ('A' ≤ c && c ≤ 'Z') || c = '_'

/-- Later characters of a pass-2 name: `[A-Z0-9_]`. -/
def isUpperRest (c : Char) : Bool := ('A' ≤ c && c ≤ 'Z') || c.isDigit || c = '_'

/-- The replacement for one resolved pass-2 match of name `name`. -/
def braceValue (env : EnvMap) (name : List Char) : List Char :=
  (((env ⟨name⟩).map String.data).getD ('\x7b' :: (name ++ ['\x7d'])))

/-- Pass 2 scanner for `/\{([A-Z_][A-Z0-9_]*)\}/g`.  On a character that
cannot extend a pending name the candidate fails; the text read so far is
emitted verbatim (it contains no further match start, since name characters
are never `{`) and the failing character is reconsidered afresh. -/
def substBraceGo (env : EnvMap) : List Char → Option (List Char) → List Char
  | [], none => []
  | [], some acc => '\x7b' :: acc.reverse
  | c :: rest, none =>
    if c = '\x7b' then substBraceGo env rest (some [])
    else c :: substBraceGo env rest none
  | c :: rest, some acc =>
    if c = '\x7d' then
      match acc with
      | [] => '\x7b' :: '\x7d' :: substBraceGo env rest none
      | _ => braceValue env acc.reverse ++ substBraceGo env rest none
    else if (if acc.length = 0 then isUpperFirst c else isUpperRest c) then
      substBraceGo env rest (some (c :: acc))
    else
      '\x7b' :: acc.reverse ++
        (if c = '\x7b' then substBraceGo env rest (some [])
         else c :: substBraceGo env rest none)

/-- The `/\{([A-Z_][A-Z0-9_]*)\}/g` replace. -/
def substBrace (env : EnvMap) (s : List Char) : List Char :=
  substBraceGo env s none

/-- First character of a pass-3 name (`i` flag): `[A-Za-z_]`. -/
def isIdentFirst (c : Char) : Bool :=
  ('A' ≤ c && c ≤ 'Z') || ('a' ≤ c && c ≤ 'z') || c = '_'

/-- Later characters of a pass-3 name: `[A-Za-z0-9_]`. -/
def isIdentRest (c : Char) : Bool := isIdentFirst c || c.isDigit

/-- The replacement for one resolved pass-3 match of name `name`. -/
def dollarValue (env : EnvMap) (name : List Char) : List Char :=
  (((env ⟨name⟩).map String.data).getD ('$' :: name))

/-- Pass 3 scanner for `/\$([A-Z_][A-Z0-9_]*)/gi`, one character per step.  A
pending name completes at the first character outside the class (or at the
end of the text) — the pattern needs no terminator; the completing character
is reconsidered afresh. -/
def substDollarGo (env : EnvMap) : List Char → ScanState → List Char
  | [], .normal => []
  | [], .sawDollar => ['$']
  | [], .pending acc => dollarValue env acc.reverse
  | c :: rest, .normal =>
    if c = '$' then substDollarGo env rest .sawDollar
    else c :: substDollarGo env rest .normal
  | c :: rest, .sawDollar =>
    if isIdentFirst c then substDollarGo env rest (.pending [c])
    else if c = '$' then '$' :: substDollarGo env rest .sawDollar
    else '$' :: c :: substDollarGo env rest .normal
  | c :: rest, .pending acc =>
    if isIdentRest c then substDollarGo env rest (.pending (c :: acc))
    else if c = '$' then dollarValue env acc.reverse ++ substDollarGo env rest .sawDollar
    else dollarValue env acc.reverse ++ c :: substDollarGo env rest .normal

/-- The `/\$([A-Z_][A-Z0-9_]*)/gi` replace. -/
def substDollar (env : EnvMap) (s : List Char) : List Char :=
  substDollarGo env s .normal

/-- `substituteEnvVars(str)`: the three replaces in sequence. -/
def substituteEnvVars (env : EnvMap) (str : String) : String :=
  ⟨substDollar env (substBrace env (substDollarBrace env str.data))⟩

mutual

/-- `processEnvVars(value)`: substitute inside every string leaf, recursing
through arrays and objects, leaving other values unchanged. -/
def processEnvVars (env : EnvMap) : JsValue → JsValue
  | .vStr s => .vStr (substituteEnvVars env s)
  | .vArr items => .vArr (processEnvVarsList env items)
  | .vObj fields => .vObj (processEnvVarsFields env fields)
  | v => v

/-- Element-wise recursion of `processEnvVars` (from `value.map(...)`). -/
def processEnvVarsList (env : EnvMap) : List JsValue → List JsValue
  | [] => []
  | v :: rest => processEnvVars env v :: processEnvVarsList env rest

/-- Key-wise recursion of `processEnvVars` (from `Object.entries`/`fromEntries`). -/
def processEnvVarsFields (env : EnvMap) : List (String × JsValue) → List (String × JsValue)
  | [] => []
  | (k, v) :: rest => (k, processEnvVars env v) :: processEnvVarsFields env rest

end

/-! ### File Pipeline Orchestrator: combined-build file selection -/

/-- The filter of `getSortedSqlFiles(sqlDir, schemaName)` from
`sql-builder.ts`: keep the files that do not start with the schema name, end
with `.sql` or `.ddl` (the source's `String.prototype.endsWith`, which is
case-sensitive), and contain a digit (`PATTERNS.FILE_NUMBER = /\d+/`). -/
def sqlFileKeep (schemaName file : String) : Bool :=
  !schemaName.data.isPrefixOf file.data &&
  (List.isSuffixOf ".sql".data file.data || List.isSuffixOf ".ddl".data file.data) &&
  file.data.any Char.isDigit

/-- The sorting step of `getSortedSqlFiles`: filter then the default
lexicographic `Array.prototype.sort`. -/
def getSortedSqlFiles (dirFiles : List String) (schemaName : String) : List String :=
  (dirFiles.filter (sqlFileKeep schemaName)).mergeSort (fun a b => a ≤ b)

/-- Modelled from the spec: the spec's membership condition for the combined
schema artifact — "not starting with the schema name itself", "case-insensitive
`.sql`/`.ddl` suffix", "contains a digit".  Stated separately from
`getSortedSqlFiles` (which embeds the code) so the two can be compared. -/
def specCombinedIncludes (schemaName file : String) : Bool :=
  !schemaName.data.isPrefixOf file.data &&
  (List.isSuffixOf ".sql".data (file.data.map Char.toLower) ||
   List.isSuffixOf ".ddl".data (file.data.map Char.toLower)) &&
  file.data.any Char.isDigit

/-! ### Reading literals back (for the round-trip property) -/

/-- Numeric value of a decimal digit character. -/
def digitVal (c : Char) : Nat := c.toNat - 48

/-- The number denoted by a most-significant-first digit string. -/
def charsToNat (cs : List Char) : Nat := cs.foldl (fun a c => 10 * a + digitVal c) 0

/-- Read an unsigned decimal numeral `[0-9]+(\.[0-9]+)?`. -/
def parseUnsigned (l : List Char) : Option ℚ :=
  let intDigits := l.takeWhile Char.isDigit
  let afterInt := l.dropWhile Char.isDigit
  if intDigits.length = 0 then none
  else
    match afterInt with
    | [] => some (mkRat (charsToNat intDigits) 1)
    | '.' :: fracPart =>
      let fracDigits := fracPart.takeWhile Char.isDigit
      if fracDigits.length = 0 then none
      else if (fracPart.dropWhile Char.isDigit).length ≠ 0 then none
      else
        some (mkRat (charsToNat intDigits * 10 ^ fracDigits.length + charsToNat fracDigits)
          (10 ^ fracDigits.length))
    | _ => none

/-- Read a decimal numeral, optionally signed: the inverse reading of the
literal grammar `-?[0-9]+(\.[0-9]+)?` that `jsNumToString` emits. -/
def parseNum (s : String) : Option ℚ :=
  match s.data with
  | '-' :: rest => (parseUnsigned rest).map Neg.neg
  | l => parseUnsigned l

/-- The value a table-context SQL literal denotes, for the literal shapes the
formatter emits for null, booleans and numbers. -/
def sqlLiteralValue (s : String) : Option JsValue :=
  if s = "NULL" then some .vNull
  else if s = "TRUE" then some (.vBool true)
  else if s = "FALSE" then some (.vBool false)
  else (parseNum s).map .vNum

/-- Undo the doubled-single-quote escape: each `''` becomes `'`, scanning
left to right (the inverse transform named by the specification). -/
def undoubleQuotes : List Char → List Char
  | '\'' :: '\'' :: rest => '\'' :: undoubleQuotes rest
  | c :: rest => c :: undoubleQuotes rest
  | [] => []

/-! ### Whitespace normalisation (to compare a multi-line statement with the
specification's single-line rendering) -/

/-- Replace every whitespace character by a plain space. -/
def mapWsToSpace (s : List Char) : List Char :=
  s.map (fun c => if isSpaceChar c then ' ' else c)

/-- Collapse runs of spaces to a single space. -/
def dedupeSpaces : List Char → List Char
  | [] => []
  | [c] => [c]
  | a :: b :: rest =>
    if a = ' ' && b = ' ' then dedupeSpaces (b :: rest)
    else a :: dedupeSpaces (b :: rest)

/-- Whitespace-normalise a string: all whitespace to spaces, runs collapsed. -/
def squashWs (s : String) : String := ⟨dedupeSpaces (mapWsToSpace s.data)⟩

/-- The statement part of a generated text: everything after the first
newline (the generators place their comment header on the first line). -/
def afterFirstLine (s : String) : String :=
  ⟨(s.data.dropWhile (fun c => c ≠ '\n')).drop 1⟩

/-! ### Decimal printing: correctness of the digit model -/

theorem digitVal_digitChar {d : Nat} (h : d < 10) : digitVal (digitChar d) = d := by
  interval_cases d <;> decide

theorem isDigit_digitChar {d : Nat} (h : d < 10) : (digitChar d).isDigit = true := by
  interval_cases d <;> decide

theorem natDigitsGo_eq (fuel n : Nat) (h : n ≤ fuel) : natDigitsGo fuel n = Nat.digits 10 n := by
  induction fuel generalizing n with
  | zero => interval_cases n; simp [natDigitsGo]
  | succ fuel ih =>
    match n with
    | 0 => simp [natDigitsGo]
    | n + 1 =>
      rw [natDigitsGo, Nat.digits_def' (by norm_num : 1 < 10) (Nat.succ_pos n)]
      rw [ih _ (by omega : (n + 1) / 10 ≤ fuel)]

theorem natDigits_eq (n : Nat) : natDigits n = Nat.digits 10 n := natDigitsGo_eq n n le_rfl

theorem natDigits_lt (n : Nat) : ∀ d ∈ natDigits n, d < 10 := by
  rw [natDigits_eq]
  exact fun d hd => Nat.digits_lt_base (by norm_num) hd

theorem charsToNat_go (ds : List Nat) (a : Nat) (h : ∀ d ∈ ds, d < 10) :
    List.foldl (fun acc c => 10 * acc + digitVal c) a ((ds.map digitChar).reverse) =
      a * 10 ^ ds.length + Nat.ofDigits 10 ds := by
  induction ds generalizing a with
  | nil => simp
  | cons d ds ih =>
    have hd : d < 10 := h d (List.mem_cons_self d ds)
    simp only [List.map_cons, List.reverse_cons, List.foldl_append, List.foldl_cons,
      List.foldl_nil]
    rw [ih a (fun x hx => h x (List.mem_cons_of_mem d hx))]
    rw [digitVal_digitChar hd, Nat.ofDigits_cons]
    simp [List.length_cons, pow_succ]
    ring

theorem charsToNat_natToChars (n : Nat) : charsToNat (natToChars n) = n := by
  unfold natToChars charsToNat
  by_cases h : n = 0
  · subst h; decide
  · simp only [h, if_false]
    rw [charsToNat_go (natDigits n) 0 (natDigits_lt n)]
    simp [natDigits_eq, Nat.ofDigits_digits]

theorem natToChars_all_digits (n : Nat) : ∀ c ∈ natToChars n, c.isDigit = true := by
  unfold natToChars
  by_cases h : n = 0
  · subst h; decide
  · simp only [h, if_false]
    intro c hc
    rw [List.mem_reverse] at hc
    obtain ⟨d, hd, rfl⟩ := List.mem_map.mp hc
    exact isDigit_digitChar (natDigits_lt n d hd)

theorem natToChars_ne_nil (n : Nat) : natToChars n ≠ [] := by
  unfold natToChars
  by_cases h : n = 0
  · subst h; decide
  · simp only [h, if_false]
    simp [natDigits_eq, Nat.digits_ne_nil_iff_ne_zero.mpr h]

theorem natToChars_length_le {n k : Nat} (hk : 1 ≤ k) (h : n < 10 ^ k) :
    (natToChars n).length ≤ k := by
  unfold natToChars
  by_cases h0 : n = 0
  · subst h0; simpa using hk
  · simp only [h0, if_false, List.length_reverse, List.length_map, natDigits_eq]
    rw [Nat.digits_len 10 n (by norm_num) h0]
    have := (Nat.lt_pow_iff_log_lt (by norm_num : 1 < 10) h0).mp h
    omega

theorem foldl_zero_replicate (m : Nat) :
    List.foldl (fun a c => 10 * a + digitVal c) 0 (List.replicate m '0') = 0 := by
  induction m with
  | zero => rfl
  | succ m ih => simpa [List.replicate_succ, digitVal] using ih

theorem charsToNat_pad (m : Nat) (cs : List Char) :
    charsToNat (List.replicate m '0' ++ cs) = charsToNat cs := by
  unfold charsToNat
  rw [List.foldl_append, foldl_zero_replicate]

theorem parseUnsigned_int (n : Nat) :
    parseUnsigned (natToChars n) = some (mkRat n 1) := by
  have hdig := natToChars_all_digits n
  have htake : (natToChars n).takeWhile Char.isDigit = natToChars n := by
    rw [List.takeWhile_eq_self_iff]; exact hdig
  have hdrop : (natToChars n).dropWhile Char.isDigit = [] := by
    rw [List.dropWhile_eq_nil_iff]; exact fun x hx => hdig x hx
  have hlen : (natToChars n).length ≠ 0 := by simpa using natToChars_ne_nil n
  simp only [parseUnsigned, htake, hdrop, hlen, if_false, charsToNat_natToChars]

theorem parseUnsigned_frac (ip : Nat) (fchars : List Char)
    (hf : ∀ c ∈ fchars, c.isDigit = true) (hne : fchars.length ≠ 0) :
    parseUnsigned (natToChars ip ++ '.' :: fchars) =
      some (mkRat (ip * 10 ^ fchars.length + charsToNat fchars) (10 ^ fchars.length)) := by
  have hdig := natToChars_all_digits ip
  have htake : (natToChars ip ++ '.' :: fchars).takeWhile Char.isDigit = natToChars ip := by
    rw [List.takeWhile_append_of_pos hdig]
    simp [List.takeWhile_cons, show ('.' : Char).isDigit = false from rfl]
  have hdrop : (natToChars ip ++ '.' :: fchars).dropWhile Char.isDigit = '.' :: fchars := by
    rw [List.dropWhile_append_of_pos hdig]
    simp [List.dropWhile_cons, show ('.' : Char).isDigit = false from rfl]
  have hlen : (natToChars ip).length ≠ 0 := by simpa using natToChars_ne_nil ip
  have hftake : fchars.takeWhile Char.isDigit = fchars := by
    rw [List.takeWhile_eq_self_iff]; exact hf
  have hfdrop : fchars.dropWhile Char.isDigit = [] := by
    rw [List.dropWhile_eq_nil_iff]; exact fun x hx => hf x hx
  simp only [parseUnsigned, htake, hdrop, hlen, if_false, hftake, hfdrop, hne,
    List.length_nil, ne_eq, not_true_eq_false, if_true, charsToNat_natToChars]

theorem decExp_dvd {d k : Nat} (h : decExp d = some k) : d ∣ 10 ^ k := by
  have := List.find?_some h
  exact Nat.dvd_of_mod_eq_zero (by simpa using this)

theorem natToChars_head_not_dash (n : Nat) :
    ∀ rest, natToChars n = '-' :: rest → False := by
  intro rest hr
  have hmem : '-' ∈ natToChars n := by rw [hr]; simp
  have := natToChars_all_digits n '-' hmem
  exact absurd this (by decide)

theorem natAbs_cast_rat_of_neg {n : Int} (h : n < 0) : ((n.natAbs : ℕ) : ℚ) = -(n : ℚ) := by
  have h2 : ((n.natAbs : ℕ) : ℤ) = -n := by rw [← abs_of_neg h, Int.abs_eq_natAbs]
  calc ((n.natAbs : ℕ) : ℚ) = (((n.natAbs : ℕ) : ℤ) : ℚ) := (Int.cast_natCast _).symm
    _ = ((-n : ℤ) : ℚ) := by rw [h2]
    _ = -(n : ℚ) := Int.cast_neg n

theorem natAbs_cast_rat_of_nonneg {n : Int} (h : 0 ≤ n) : ((n.natAbs : ℕ) : ℚ) = (n : ℚ) := by
  have h2 : ((n.natAbs : ℕ) : ℤ) = n := Int.natAbs_of_nonneg h
  calc ((n.natAbs : ℕ) : ℚ) = (((n.natAbs : ℕ) : ℤ) : ℚ) := (Int.cast_natCast _).symm
    _ = (n : ℚ) := by rw [h2]

theorem parseNum_int_case (q : ℚ) (hden : q.den = 1) (hk : decExp q.den = some 0) :
    parseNum (jsNumToString q) = some q := by
  have hq : (q.num : ℚ) = q := (Rat.den_eq_one_iff q).mp hden
  by_cases hneg : q.num < 0
  · have hdata : (jsNumToString q).data = '-' :: natToChars q.num.natAbs := by
      simp only [jsNumToString, hk, hneg, if_true]
      rw [String.data_append]
      rfl
    rw [parseNum.eq_def, hdata]
    show (parseUnsigned (natToChars q.num.natAbs)).map Neg.neg = some q
    rw [parseUnsigned_int]
    show some (-(mkRat (q.num.natAbs : Int) 1)) = some q
    congr 1
    rw [Rat.mkRat_one]
    rw [Int.cast_natCast, natAbs_cast_rat_of_neg hneg, neg_neg, hq]
  · have hdata : (jsNumToString q).data = natToChars q.num.natAbs := by
      simp only [jsNumToString, hk, hneg, if_false]
      rw [String.data_append]
      rfl
    rw [parseNum.eq_def, hdata]
    split
    · next rest heq => exact absurd heq (natToChars_head_not_dash _ rest)
    · next heq =>
      rw [parseUnsigned_int, Rat.mkRat_one]
      congr 1
      rw [Int.cast_natCast, natAbs_cast_rat_of_nonneg (Int.not_lt.mp hneg), hq]

theorem parseNum_frac_case (q : ℚ) (k : Nat) (hk : decExp q.den = some (k + 1)) :
    parseNum (jsNumToString q) = some q := by
  have hdvd : q.den ∣ 10 ^ (k + 1) := decExp_dvd hk
  have hN : 0 < 10 ^ (k + 1) := Nat.pos_pow_of_pos _ (by norm_num)
  set N := 10 ^ (k + 1) with hNdef
  have hm : N / q.den * q.den = N := Nat.div_mul_cancel hdvd
  have hm0 : N / q.den ≠ 0 := by
    intro h0
    rw [h0] at hm
    omega
  set m := N / q.den with hmdef
  set scaled := q.num.natAbs * m with hscaled
  set ip := scaled / N with hip
  set fr := scaled % N with hfr
  have hfrlt : fr < N := Nat.mod_lt _ hN
  set fchars := natToChars fr with hfchars
  set pad := k + 1 - fchars.length with hpad
  set full := List.replicate pad '0' ++ fchars with hfull
  have hflen : fchars.length ≤ k + 1 :=
    natToChars_length_le (Nat.succ_le_succ (Nat.zero_le k)) hfrlt
  have hfull_len : full.length = k + 1 := by
    rw [hfull, List.length_append, List.length_replicate]
    omega
  have hfull_digits : ∀ c ∈ full, c.isDigit = true := by
    intro c hc
    rw [hfull, List.mem_append] at hc
    rcases hc with hc | hc
    · rw [List.eq_of_mem_replicate hc]; decide
    · exact natToChars_all_digits fr c hc
  have hfull_ne : full.length ≠ 0 := by omega
  have hcharsfull : charsToNat full = fr := by
    rw [hfull, charsToNat_pad, hfchars, charsToNat_natToChars]
  have h2 : ip * 10 ^ (k + 1) + fr = scaled := by
    rw [hip, hfr, ← hNdef, Nat.mul_comm]
    exact Nat.div_add_mod scaled N
  have hInt : ((ip : ℤ) * 10 ^ (k + 1) + (fr : ℤ)) = (scaled : ℤ) := by exact_mod_cast h2
  have hparse : parseUnsigned (natToChars ip ++ '.' :: full) =
      some (mkRat (scaled : Int) (10 ^ (k + 1))) := by
    rw [parseUnsigned_frac ip full hfull_digits hfull_ne, hcharsfull, hfull_len, hInt]
  have hrecon0 : mkRat (scaled : Int) (10 ^ (k + 1)) = mkRat ((q.num.natAbs : Int)) q.den := by
    rw [← hNdef]
    rw [hscaled]
    rw [show ((q.num.natAbs * m : ℕ) : ℤ) = (q.num.natAbs : ℤ) * (m : ℤ) from Nat.cast_mul _ _]
    rw [show N = q.den * m by rw [Nat.mul_comm]; exact hm.symm]
    rw [show ((m : ℕ) : ℤ) = ((m : ℕ) : ℤ) from rfl]
    exact Rat.mkRat_mul_right hm0
  by_cases hneg : q.num < 0
  · have hdata : (jsNumToString q).data = '-' :: (natToChars ip ++ '.' :: full) := by
      simp only [jsNumToString, hk, hneg, if_true]
      rw [String.data_append, String.data_append, String.data_append]
      simp [List.append_assoc, hip, hfr, hpad, hfchars]
    rw [parseNum.eq_def, hdata]
    show (parseUnsigned (natToChars ip ++ '.' :: full)).map Neg.neg = some q
    rw [hparse]
    show some (-(mkRat (scaled : Int) (10 ^ (k + 1)))) = some q
    rw [hrecon0, Rat.neg_mkRat]
    congr 1
    have habs : ((q.num.natAbs : ℕ) : ℤ) = -q.num := by
      rw [← abs_of_neg hneg, Int.abs_eq_natAbs]
    rw [show -(q.num.natAbs : Int) = q.num by rw [habs]; ring]
    exact Rat.mkRat_self q
  · have hdata : (jsNumToString q).data = natToChars ip ++ '.' :: full := by
      simp only [jsNumToString, hk, hneg, if_false]
      rw [String.data_append, String.data_append, String.data_append]
      simp [List.append_assoc, hip, hfr, hpad, hfchars]
    rw [parseNum.eq_def, hdata]
    split
    · next rest heq =>
      obtain ⟨c, cs, hc⟩ := List.exists_cons_of_ne_nil (natToChars_ne_nil ip)
      rw [hc] at heq
      have hcd : c.isDigit = true := by
        have := natToChars_all_digits ip
        rw [hc] at this; exact this c (by simp)
      have : c = '-' := List.head_eq_of_cons_eq heq
      rw [this] at hcd
      exact absurd hcd (by decide)
    · next heq =>
      rw [hparse, hrecon0]
      congr 1
      rw [show (q.num.natAbs : Int) = q.num from Int.natAbs_of_nonneg (Int.not_lt.mp hneg)]
      exact Rat.mkRat_self q

theorem parseNum_jsNumToString (q : ℚ) (h : (decExp q.den).isSome) :
    parseNum (jsNumToString q) = some q := by
  obtain ⟨k, hk⟩ := Option.isSome_iff_exists.mp h
  match k, hk with
  | 0, hk =>
    have hden : q.den = 1 := Nat.dvd_one.mp (by simpa using decExp_dvd hk)
    exact parseNum_int_case q hden hk
  | k + 1, hk => exact parseNum_frac_case q k hk

theorem undoubleQuotes_cons_ne {c : Char} (l : List Char) (h : c ≠ '\'') :
    undoubleQuotes (c :: l) = c :: undoubleQuotes l := by
  rw [undoubleQuotes.eq_def]
  split
  · next heq => exact absurd (List.head_eq_of_cons_eq heq) h
  · next heq => rw [← List.cons_eq_cons.mp heq |>.1, ← List.cons_eq_cons.mp heq |>.2]
  · next heq => exact absurd heq (by simp)

theorem undouble_escape (s : List Char) : undoubleQuotes (escapeChars s) = s := by
  induction s with
  | nil => rfl
  | cons c cs ih =>
    by_cases hc : c = '\''
    · subst hc
      show undoubleQuotes ('\'' :: '\'' :: escapeChars cs) = _
      rw [undoubleQuotes, ih]
    · show undoubleQuotes ((if c = '\'' then [c, c] else [c]) ++ escapeChars cs) = _
      rw [if_neg hc]
      simp only [List.singleton_append]
      rw [undoubleQuotes_cons_ne _ hc, ih]

theorem natToChars_head_append (n : Nat) (tail : List Char) :
    ∃ c cs, natToChars n ++ tail = c :: cs ∧ c.isDigit = true := by
  obtain ⟨c, cs, hc⟩ := List.exists_cons_of_ne_nil (natToChars_ne_nil n)
  refine ⟨c, cs ++ tail, by rw [hc]; simp, ?_⟩
  have := natToChars_all_digits n
  rw [hc] at this
  exact this c (by simp)

theorem jsNumToString_head (q : ℚ) :
    ∃ c cs, (jsNumToString q).data = c :: cs ∧ (c = '-' ∨ c.isDigit = true) := by
  by_cases hneg : q.num < 0
  · refine ⟨'-', ((jsNumToString q).data).tail, ?_, Or.inl rfl⟩
    unfold jsNumToString
    match decExp q.den with
    | some 0 =>
      simp only [hneg, if_true]
      rw [String.data_append]
      rfl
    | some (k + 1) =>
      simp only [hneg, if_true]
      rw [String.data_append, String.data_append, String.data_append]
      rfl
    | none =>
      simp only [hneg, if_true]
      rw [String.data_append]
      rfl
  · unfold jsNumToString
    match decExp q.den with
    | some 0 =>
      simp only [hneg, if_false]
      rw [String.data_append]
      obtain ⟨c, cs, hc, hd⟩ := natToChars_head_append q.num.natAbs []
      exact ⟨c, cs, by rw [show ("" : String).data = [] from rfl]; simpa using hc, Or.inr hd⟩
    | some (k + 1) =>
      simp only [hneg, if_false]
      rw [String.data_append, String.data_append, String.data_append]
      obtain ⟨c, cs, hc, hd⟩ := natToChars_head_append
        (q.num.natAbs * (10 ^ (k + 1) / q.den) / 10 ^ (k + 1)) _
      refine ⟨c, cs, ?_, Or.inr hd⟩
      rw [show ("" : String).data = [] from rfl]
      simpa using hc
    | none =>
      simp only [hneg, if_false]
      rw [String.data_append]
      obtain ⟨c, cs, hc, hd⟩ := natToChars_head_append q.num.natAbs []
      exact ⟨c, cs, by rw [show ("" : String).data = [] from rfl]; simpa using hc, Or.inr hd⟩

theorem jsNumToString_ne_word (q : ℚ) (w : String) (hw : w.data.head? = some 'N' ∨ w.data.head? = some 'T' ∨ w.data.head? = some 'F') :
    jsNumToString q ≠ w := by
  obtain ⟨c, cs, hc, hd⟩ := jsNumToString_head q
  intro he
  rw [he] at hc
  have : w.data.head? = some c := by rw [hc]; rfl
  rcases hw with h | h | h <;> rw [this] at h <;>
    (injection h with h1; subst h1;
     rcases hd with hd | hd
     · exact absurd hd (by decide)
     · exact absurd hd (by decide))

theorem sqlLiteralValue_num (q : ℚ) (h : (decExp q.den).isSome) :
    sqlLiteralValue (jsNumToString q) = some (.vNum q) := by
  have h1 : jsNumToString q ≠ "NULL" := jsNumToString_ne_word q _ (Or.inl rfl)
  have h2 : jsNumToString q ≠ "TRUE" := jsNumToString_ne_word q _ (Or.inr (Or.inl rfl))
  have h3 : jsNumToString q ≠ "FALSE" := jsNumToString_ne_word q _ (Or.inr (Or.inr rfl))
  simp only [sqlLiteralValue, h1, h2, h3, if_false, parseNum_jsNumToString q h,
    Option.map_some']

/-! ### Environment substitution: scanner lemmas -/

theorem sdbGo_normal_step (env : EnvMap) (c : Char) (rest : List Char) :
    substDollarBraceGo env (c :: rest) .normal =
      if c = '$' then substDollarBraceGo env rest .sawDollar
      else c :: substDollarBraceGo env rest .normal := rfl

theorem sdbGo_sawDollar_step (env : EnvMap) (c : Char) (rest : List Char) :
    substDollarBraceGo env (c :: rest) .sawDollar =
      if c = '\x7b' then substDollarBraceGo env rest (.pending [])
      else if c = '$' then '$' :: substDollarBraceGo env rest .sawDollar
      else '$' :: c :: substDollarBraceGo env rest .normal := rfl

theorem sdbGo_pending_step (env : EnvMap) (c : Char) (rest acc : List Char) :
    substDollarBraceGo env (c :: rest) (.pending acc) =
      if c = '\x7d' then
        (match acc with
         | [] => '$' :: '\x7b' :: '\x7d' :: substDollarBraceGo env rest .normal
         | _ => dollarBraceValue env acc.reverse ++ substDollarBraceGo env rest .normal)
      else substDollarBraceGo env rest (.pending (c :: acc)) := rfl

theorem substDollarBraceGo_copy (env : EnvMap) (l : List Char) (h : ∀ c ∈ l, c ≠ '$') :
    substDollarBraceGo env l .normal = l := by
  induction l with
  | nil => rfl
  | cons c rest ih =>
    rw [sdbGo_normal_step, if_neg (h c (by simp))]
    rw [ih (fun x hx => h x (by simp [hx]))]

theorem substDollarBraceGo_pending (env : EnvMap) (u acc : List Char)
    (hu : ∀ c ∈ u, c ≠ '\x7d') (hne : acc.reverse ++ u ≠ []) :
    substDollarBraceGo env (u ++ ['\x7d']) (.pending acc) =
      dollarBraceValue env (acc.reverse ++ u) := by
  induction u generalizing acc with
  | nil =>
    have hacc : acc ≠ [] := by simpa using hne
    obtain ⟨a, as, rfl⟩ := List.exists_cons_of_ne_nil hacc
    rw [List.nil_append, sdbGo_pending_step, if_pos rfl]
    show dollarBraceValue env (a :: as).reverse ++ substDollarBraceGo env [] .normal = _
    rw [show substDollarBraceGo env [] ScanState.normal = [] from rfl, List.append_nil,
      List.append_nil]
  | cons c u ih =>
    have hc : c ≠ '\x7d' := hu c (by simp)
    rw [List.cons_append, sdbGo_pending_step, if_neg hc]
    rw [ih (c :: acc) (fun x hx => hu x (by simp [hx])) (by simp)]
    congr 1
    simp

theorem substDollarBrace_placeholder (env : EnvMap) (name : List Char)
    (hne : name ≠ []) (hname : ∀ c ∈ name, c ≠ '\x7d') :
    substDollarBrace env ('$' :: '\x7b' :: (name ++ ['\x7d'])) =
      dollarBraceValue env name := by
  rw [substDollarBrace, sdbGo_normal_step, if_pos rfl, sdbGo_sawDollar_step, if_pos rfl]
  rw [substDollarBraceGo_pending env name [] hname (by simpa using hne)]
  rfl

theorem isIdentRest_ne (c : Char) (h : isIdentRest c = true) :
    c ≠ '\x7d' ∧ c ≠ '\x7b' ∧ c ≠ '$' := by
  refine ⟨?_, ?_, ?_⟩ <;> (intro he; subst he; revert h; decide)

theorem isIdentFirst_isIdentRest (c : Char) (h : isIdentFirst c = true) :
    isIdentRest c = true := by
  simp [isIdentRest, h]

theorem isUpperRest_ne (c : Char) (h : isUpperRest c = true) :
    c ≠ '\x7d' ∧ c ≠ '\x7b' := by
  constructor <;> (intro he; subst he; revert h; decide)

/- pass-2 step lemmas and walks -/

theorem sbGo_normal_step (env : EnvMap) (c : Char) (rest : List Char) :
    substBraceGo env (c :: rest) none =
      if c = '\x7b' then substBraceGo env rest (some [])
      else c :: substBraceGo env rest none := rfl

theorem sbGo_pending_step (env : EnvMap) (c : Char) (rest acc : List Char) :
    substBraceGo env (c :: rest) (some acc) =
      if c = '\x7d' then
        (match acc with
         | [] => '\x7b' :: '\x7d' :: substBraceGo env rest none
         | _ => braceValue env acc.reverse ++ substBraceGo env rest none)
      else if (if acc.length = 0 then isUpperFirst c else isUpperRest c) then
        substBraceGo env rest (some (c :: acc))
      else
        '\x7b' :: acc.reverse ++
          (if c = '\x7b' then substBraceGo env rest (some [])
           else c :: substBraceGo env rest none) := rfl

theorem substBraceGo_copy (env : EnvMap) (l : List Char) (h : ∀ c ∈ l, c ≠ '\x7b') :
    substBraceGo env l none = l := by
  induction l with
  | nil => rfl
  | cons c rest ih =>
    rw [sbGo_normal_step, if_neg (h c (by simp))]
    rw [ih (fun x hx => h x (by simp [hx]))]

theorem substBraceGo_pending_full (env : EnvMap) (u acc : List Char)
    (hu : ∀ c ∈ u, isUpperRest c = true) (hacc : acc ≠ []) :
    substBraceGo env (u ++ ['\x7d']) (some acc) = braceValue env (acc.reverse ++ u) := by
  induction u generalizing acc with
  | nil =>
    obtain ⟨a, as, rfl⟩ := List.exists_cons_of_ne_nil hacc
    rw [List.nil_append, sbGo_pending_step, if_pos rfl]
    show braceValue env (a :: as).reverse ++ substBraceGo env [] none = _
    rw [show substBraceGo env [] none = [] from rfl, List.append_nil, List.append_nil]
  | cons c u ih =>
    have hcu : isUpperRest c = true := hu c (by simp)
    have hc : c ≠ '\x7d' := (isUpperRest_ne c hcu).1
    rw [List.cons_append, sbGo_pending_step, if_neg hc]
    have hlen : acc.length ≠ 0 := by simpa using hacc
    rw [if_pos (by simp [hlen, hcu])]
    rw [ih (c :: acc) (fun x hx => hu x (by simp [hx])) (by simp)]
    congr 1
    simp

theorem substBraceGo_pending_id (env : EnvMap) (u acc : List Char)
    (henv : env ⟨acc.reverse ++ u⟩ = none)
    (hu : ∀ c ∈ u, isIdentRest c = true) (hne : acc.reverse ++ u ≠ []) :
    substBraceGo env (u ++ ['\x7d']) (some acc) = '\x7b' :: (acc.reverse ++ u ++ ['\x7d']) := by
  induction u generalizing acc with
  | nil =>
    have hacc : acc ≠ [] := by simpa using hne
    obtain ⟨a, as, rfl⟩ := List.exists_cons_of_ne_nil hacc
    rw [List.nil_append, sbGo_pending_step, if_pos rfl]
    show braceValue env (a :: as).reverse ++ substBraceGo env [] none = _
    rw [show substBraceGo env [] none = [] from rfl, List.append_nil]
    rw [List.append_nil] at henv
    rw [braceValue, henv]
    simp
  | cons c u ih =>
    have hcu : isIdentRest c = true := hu c (by simp)
    have hc : c ≠ '\x7d' := (isIdentRest_ne c hcu).1
    rw [List.cons_append, sbGo_pending_step, if_neg hc]
    by_cases hcl : (if acc.length = 0 then isUpperFirst c else isUpperRest c) = true
    · rw [if_pos hcl]
      rw [ih (c :: acc) (by simpa using henv) (fun x hx => hu x (by simp [hx])) (by simp)]
      congr 1
      simp
    · rw [if_neg hcl, if_neg (isIdentRest_ne c hcu).2.1]
      rw [substBraceGo_copy env (u ++ ['\x7d'])
        (fun x hx => by
          rcases List.mem_append.mp hx with hx | hx
          · exact (isIdentRest_ne x (hu x (by simp [hx]))).2.1
          · simp at hx; subst hx; decide)]
      simp

/- pass-3 step lemmas and walks -/

theorem sdGo_normal_step (env : EnvMap) (c : Char) (rest : List Char) :
    substDollarGo env (c :: rest) .normal =
      if c = '$' then substDollarGo env rest .sawDollar
      else c :: substDollarGo env rest .normal := rfl

theorem sdGo_sawDollar_step (env : EnvMap) (c : Char) (rest : List Char) :
    substDollarGo env (c :: rest) .sawDollar =
      if isIdentFirst c then substDollarGo env rest (.pending [c])
      else if c = '$' then '$' :: substDollarGo env rest .sawDollar
      else '$' :: c :: substDollarGo env rest .normal := rfl

theorem sdGo_pending_step (env : EnvMap) (c : Char) (rest acc : List Char) :
    substDollarGo env (c :: rest) (.pending acc) =
      if isIdentRest c then substDollarGo env rest (.pending (c :: acc))
      else if c = '$' then dollarValue env acc.reverse ++ substDollarGo env rest .sawDollar
      else dollarValue env acc.reverse ++ c :: substDollarGo env rest .normal := rfl

theorem substDollarGo_copy (env : EnvMap) (l : List Char) (h : ∀ c ∈ l, c ≠ '$') :
    substDollarGo env l .normal = l := by
  induction l with
  | nil => rfl
  | cons c rest ih =>
    rw [sdGo_normal_step, if_neg (h c (by simp))]
    rw [ih (fun x hx => h x (by simp [hx]))]

theorem substDollarGo_pending_full (env : EnvMap) (u acc : List Char)
    (hu : ∀ c ∈ u, isIdentRest c = true) :
    substDollarGo env u (.pending acc) = dollarValue env (acc.reverse ++ u) := by
  induction u generalizing acc with
  | nil => show dollarValue env acc.reverse = _; rw [List.append_nil]
  | cons c u ih =>
    rw [sdGo_pending_step, if_pos (hu c (by simp))]
    rw [ih (c :: acc) (fun x hx => hu x (by simp [hx]))]
    congr 1
    simp

theorem substDollar_placeholder (env : EnvMap) (d : Char) (ds : List Char)
    (hd : isIdentFirst d = true) (hds : ∀ c ∈ ds, isIdentRest c = true) :
    substDollar env ('$' :: d :: ds) = dollarValue env (d :: ds) := by
  rw [substDollar, sdGo_normal_step, if_pos rfl, sdGo_sawDollar_step, if_pos hd]
  rw [substDollarGo_pending_full env ds [d] hds]
  rfl

theorem substDollarGo_dollar_brace (env : EnvMap) (l : List Char)
    (h : ∀ c ∈ l, c ≠ '$') :
    substDollarGo env ('$' :: '\x7b' :: l) .normal = '$' :: '\x7b' :: l := by
  rw [sdGo_normal_step, if_pos rfl, sdGo_sawDollar_step,
    if_neg (by decide : ¬ isIdentFirst '\x7b' = true), if_neg (by decide : ¬ '\x7b' = '$')]
  rw [substDollarGo_copy env l h]

theorem substDollarBraceGo_dollar_ident (env : EnvMap) (d : Char) (ds : List Char)
    (hd : isIdentFirst d = true) (hds : ∀ c ∈ ds, isIdentRest c = true) :
    substDollarBrace env ('$' :: d :: ds) = '$' :: d :: ds := by
  have hdne : d ≠ '\x7b' := (isIdentRest_ne d (isIdentFirst_isIdentRest d hd)).2.1
  have hdnd : d ≠ '$' := (isIdentRest_ne d (isIdentFirst_isIdentRest d hd)).2.2
  rw [substDollarBrace, sdbGo_normal_step, if_pos rfl, sdbGo_sawDollar_step,
    if_neg hdne, if_neg hdnd]
  rw [substDollarBraceGo_copy env ds (fun x hx => (isIdentRest_ne x (hds x hx)).2.2)]

theorem isUpperRest_ne' (c : Char) (h : isUpperRest c = true) :
    c ≠ '\x7d' ∧ c ≠ '\x7b' ∧ c ≠ '$' := by
  refine ⟨?_, ?_, ?_⟩ <;> (intro he; subst he; revert h; decide)

theorem isUpperFirst_isUpperRest (c : Char) (h : isUpperFirst c = true) :
    isUpperRest c = true := by
  simp only [isUpperFirst, Bool.or_eq_true] at h
  simp only [isUpperRest, Bool.or_eq_true]
  tauto

/- composite behaviour of substituteEnvVars on each placeholder form -/

theorem substitute_dollarBrace_unset (env : EnvMap) (name : List Char)
    (hne : name ≠ []) (hu : ∀ c ∈ name, isIdentRest c = true)
    (henv : env ⟨name⟩ = none) :
    substituteEnvVars env ⟨'$' :: '\x7b' :: (name ++ ['\x7d'])⟩ =
      ⟨'$' :: '\x7b' :: (name ++ ['\x7d'])⟩ := by
  unfold substituteEnvVars
  congr 1
  rw [show (String.mk ('$' :: '\x7b' :: (name ++ ['\x7d']))).data =
    '$' :: '\x7b' :: (name ++ ['\x7d']) from rfl]
  rw [substDollarBrace_placeholder env name hne (fun c hc => (isIdentRest_ne c (hu c hc)).1)]
  rw [dollarBraceValue, henv, Option.map_none', Option.getD_none]
  rw [substBrace, sbGo_normal_step, if_neg (by decide : ¬ ('$' : Char) = '\x7b'),
    sbGo_normal_step, if_pos rfl]
  rw [substBraceGo_pending_id env name [] (by simpa using henv) hu (by simpa using hne)]
  exact substDollarGo_dollar_brace env (name ++ ['\x7d'])
    (fun c hc => by
      rcases List.mem_append.mp hc with hc | hc
      · exact (isIdentRest_ne c (hu c hc)).2.2
      · simp at hc; subst hc; decide)

theorem substitute_dollarBrace_set (env : EnvMap) (name : List Char) (v : String)
    (hne : name ≠ []) (hu : ∀ c ∈ name, isIdentRest c = true)
    (henv : env ⟨name⟩ = some v)
    (hv1 : ∀ c ∈ v.data, c ≠ '\x7b') (hv2 : ∀ c ∈ v.data, c ≠ '$') :
    substituteEnvVars env ⟨'$' :: '\x7b' :: (name ++ ['\x7d'])⟩ = v := by
  unfold substituteEnvVars
  rw [show (String.mk ('$' :: '\x7b' :: (name ++ ['\x7d']))).data =
    '$' :: '\x7b' :: (name ++ ['\x7d']) from rfl]
  rw [substDollarBrace_placeholder env name hne (fun c hc => (isIdentRest_ne c (hu c hc)).1)]
  rw [dollarBraceValue, henv, Option.map_some', Option.getD_some]
  rw [substBrace, substBraceGo_copy env v.data hv1, substDollar, substDollarGo_copy env v.data hv2]

theorem substitute_brace_unset (env : EnvMap) (d : Char) (ds : List Char)
    (hd : isUpperFirst d = true) (hds : ∀ c ∈ ds, isUpperRest c = true)
    (henv : env ⟨d :: ds⟩ = none) :
    substituteEnvVars env ⟨'\x7b' :: ((d :: ds) ++ ['\x7d'])⟩ =
      ⟨'\x7b' :: ((d :: ds) ++ ['\x7d'])⟩ := by
  have hall : ∀ c ∈ '\x7b' :: ((d :: ds) ++ ['\x7d']), c ≠ '$' := by
    intro c hc
    rw [List.mem_cons, List.mem_append, List.mem_cons, List.mem_singleton] at hc
    rcases hc with rfl | (heq | hc) | rfl
    · decide
    · cases heq; exact (isUpperRest_ne' _ (isUpperFirst_isUpperRest _ hd)).2.2
    · exact (isUpperRest_ne' c (hds c hc)).2.2
    · decide
  unfold substituteEnvVars
  congr 1
  rw [show (String.mk ('\x7b' :: ((d :: ds) ++ ['\x7d']))).data =
    '\x7b' :: ((d :: ds) ++ ['\x7d']) from rfl]
  rw [substDollarBrace, substDollarBraceGo_copy env _ hall]
  rw [substBrace, sbGo_normal_step, if_pos rfl, List.cons_append, sbGo_pending_step,
    if_neg (isUpperRest_ne' d (isUpperFirst_isUpperRest d hd)).1,
    if_pos (by simp [hd])]
  rw [substBraceGo_pending_full env ds [d] hds (by simp)]
  rw [braceValue, show ([d].reverse ++ ds) = d :: ds by simp, henv, Option.map_none',
    Option.getD_none]
  exact substDollarGo_copy env _ hall

theorem substitute_brace_set (env : EnvMap) (d : Char) (ds : List Char) (v : String)
    (hd : isUpperFirst d = true) (hds : ∀ c ∈ ds, isUpperRest c = true)
    (henv : env ⟨d :: ds⟩ = some v) (hv2 : ∀ c ∈ v.data, c ≠ '$') :
    substituteEnvVars env ⟨'\x7b' :: ((d :: ds) ++ ['\x7d'])⟩ = v := by
  have hall : ∀ c ∈ '\x7b' :: ((d :: ds) ++ ['\x7d']), c ≠ '$' := by
    intro c hc
    rw [List.mem_cons, List.mem_append, List.mem_cons, List.mem_singleton] at hc
    rcases hc with rfl | (heq | hc) | rfl
    · decide
    · cases heq; exact (isUpperRest_ne' _ (isUpperFirst_isUpperRest _ hd)).2.2
    · exact (isUpperRest_ne' c (hds c hc)).2.2
    · decide
  unfold substituteEnvVars
  rw [show (String.mk ('\x7b' :: ((d :: ds) ++ ['\x7d']))).data =
    '\x7b' :: ((d :: ds) ++ ['\x7d']) from rfl]
  rw [substDollarBrace, substDollarBraceGo_copy env _ hall]
  rw [substBrace, sbGo_normal_step, if_pos rfl, List.cons_append, sbGo_pending_step,
    if_neg (isUpperRest_ne' d (isUpperFirst_isUpperRest d hd)).1,
    if_pos (by simp [hd])]
  rw [substBraceGo_pending_full env ds [d] hds (by simp)]
  rw [braceValue, show ([d].reverse ++ ds) = d :: ds by simp, henv, Option.map_some',
    Option.getD_some]
  rw [substDollar, substDollarGo_copy env v.data hv2]

theorem substitute_dollar_unset (env : EnvMap) (d : Char) (ds : List Char)
    (hd : isIdentFirst d = true) (hds : ∀ c ∈ ds, isIdentRest c = true)
    (henv : env ⟨d :: ds⟩ = none) :
    substituteEnvVars env ⟨'$' :: d :: ds⟩ = ⟨'$' :: d :: ds⟩ := by
  have hnb : ∀ c ∈ '$' :: d :: ds, c ≠ '\x7b' := by
    intro c hc
    rw [List.mem_cons, List.mem_cons] at hc
    rcases hc with rfl | heq | hc
    · decide
    · cases heq; exact (isIdentRest_ne _ (isIdentFirst_isIdentRest _ hd)).2.1
    · exact (isIdentRest_ne c (hds c hc)).2.1
  unfold substituteEnvVars
  congr 1
  rw [show (String.mk ('$' :: d :: ds)).data = '$' :: d :: ds from rfl]
  rw [substDollarBraceGo_dollar_ident env d ds hd hds]
  rw [substBrace, substBraceGo_copy env _ hnb]
  rw [substDollar_placeholder env d ds hd hds]
  rw [dollarValue, henv, Option.map_none', Option.getD_none]

theorem substitute_dollar_set (env : EnvMap) (d : Char) (ds : List Char) (v : String)
    (hd : isIdentFirst d = true) (hds : ∀ c ∈ ds, isIdentRest c = true)
    (henv : env ⟨d :: ds⟩ = some v) :
    substituteEnvVars env ⟨'$' :: d :: ds⟩ = v := by
  have hnb : ∀ c ∈ '$' :: d :: ds, c ≠ '\x7b' := by
    intro c hc
    rw [List.mem_cons, List.mem_cons] at hc
    rcases hc with rfl | heq | hc
    · decide
    · cases heq; exact (isIdentRest_ne _ (isIdentFirst_isIdentRest _ hd)).2.1
    · exact (isIdentRest_ne c (hds c hc)).2.1
  unfold substituteEnvVars
  rw [show (String.mk ('$' :: d :: ds)).data = '$' :: d :: ds from rfl]
  rw [substDollarBraceGo_dollar_ident env d ds hd hds]
  rw [substBrace, substBraceGo_copy env _ hnb]
  rw [substDollar_placeholder env d ds hd hds]
  rw [dollarValue, henv, Option.map_some', Option.getD_some]

/-! ### The claims -/

theorem formatParamEntries_map (fields : List (String × JsValue)) :
    formatParamEntries fields =
      fields.map (fun kv => "'" ++ escapeString kv.1 ++ "', " ++ formatParam kv.2 none) := by
  induction fields with
  | nil => rfl
  | cons kv rest ih =>
    obtain ⟨k, v⟩ := kv
    rw [formatParamEntries, ih]
    rfl

theorem intercalate_go_acc (l : List String) (acc₁ acc₂ s : String) :
    String.intercalate.go (acc₁ ++ acc₂) s l = acc₁ ++ String.intercalate.go acc₂ s l := by
  induction l generalizing acc₂ with
  | nil => rfl
  | cons a as ih =>
    show String.intercalate.go (acc₁ ++ acc₂ ++ s ++ a) s as = _
    rw [String.append_assoc, String.append_assoc, ← String.append_assoc acc₂ s a]
    rw [ih (acc₂ ++ s ++ a)]
    rfl

theorem intercalate_cons_cons (s a b : String) (l : List String) :
    String.intercalate s (a :: b :: l) = a ++ s ++ String.intercalate s (b :: l) := by
  show String.intercalate.go (a ++ s ++ b) s l = _
  rw [String.append_assoc, ← String.append_assoc a s b, intercalate_go_acc l (a ++ s) b s]
  rfl

/-- C1: for every non-empty row list the generated INSERT statement takes its
column list from the first row's keys in insertion order, uses the first
column as the ON CONFLICT key, and emits one `col = COALESCE(EXCLUDED.col,
<table>.col)` update clause for every column except the first; on the rows
`[{id:1, name:'a'}, {id:2, name:'b'}]` against table `t` the statement
(whitespace-normalised, after the generated comment header) is exactly
`INSERT INTO t (id, name) VALUES (1, 'a'), (2, 'b') ON CONFLICT (id) DO
UPDATE SET name = COALESCE(EXCLUDED.name, t.name);`. -/
theorem insert_upsert_from_first_row :
    (∀ (r : RowRec) (rest : List RowRec) (t : String),
      generateInsert (r :: rest) t =
        String.intercalate "\n"
          ["-- Generated from JSON data",
           "INSERT INTO " ++ t ++ " (" ++ String.intercalate ", " (rowKeys r) ++ ") VALUES",
           String.intercalate ",\n" ((r :: rest).map fun row =>
             "(" ++ String.intercalate ", " ((rowKeys r).map fun col =>
               toSqlLiteral (rowGet row col) (some col)) ++ ")"),
           "ON CONFLICT (" ++ (rowKeys r).headD "undefined" ++ ") DO UPDATE SET",
           String.intercalate ",\n" ((rowKeys r).tail.map fun col =>
             "    " ++ col ++ " = COALESCE(EXCLUDED." ++ col ++ ", " ++ t ++ "." ++ col ++ ")") ++ ";"]) ∧
    generateInsert [[("id", .vNum 1), ("name", .vStr "a")], [("id", .vNum 2), ("name", .vStr "b")]] "t" =
      "-- Generated from JSON data\nINSERT INTO t (id, name) VALUES\n(1, 'a'),\n(2, 'b')\nON CONFLICT (id) DO UPDATE SET\n    name = COALESCE(EXCLUDED.name, t.name);" ∧
    squashWs (afterFirstLine (generateInsert
      [[("id", .vNum 1), ("name", .vStr "a")], [("id", .vNum 2), ("name", .vStr "b")]] "t")) =
      "INSERT INTO t (id, name) VALUES (1, 'a'), (2, 'b') ON CONFLICT (id) DO UPDATE SET name = COALESCE(EXCLUDED.name, t.name);" :=
  ⟨fun _ _ _ => rfl, by decide, by decide⟩

/-- C5: for every target kind, converting a document with an empty extracted
row list produces exactly the single comment `-- No rows to insert` and no
SQL statement. -/
theorem jsonToSql_empty_rows (name : String) (type : TargetType) :
    jsonToSql [] name type = "-- No rows to insert" := rfl

/-- C8: row extraction applies exactly the four priority rules: a sequence is
the row list; a mapping with a sequence under `rows` yields that sequence;
any other mapping is wrapped as a one-element row list; scalars, null and an
unparsed document yield the empty row list. -/
theorem parseYamlRows_rules :
    (∀ rows, parseYamlRows (some (.vArr rows)) = rows) ∧
    (∀ fields rows, fields.lookup "rows" = some (.vArr rows) →
      parseYamlRows (some (.vObj fields)) = rows) ∧
    (∀ fields, (∀ rows, fields.lookup "rows" ≠ some (.vArr rows)) →
      parseYamlRows (some (.vObj fields)) = [.vObj fields]) ∧
    (∀ s, parseYamlRows (some (.vStr s)) = []) ∧
    (∀ q, parseYamlRows (some (.vNum q)) = []) ∧
    (∀ b, parseYamlRows (some (.vBool b)) = []) ∧
    parseYamlRows (some .vNull) = [] ∧
    parseYamlRows none = [] := by
  refine ⟨fun rows => rfl, ?_, ?_, fun s => rfl, fun q => rfl, fun b => rfl, rfl, rfl⟩
  · intro fields rows h
    simp only [parseYamlRows, h]
  · intro fields h
    rw [parseYamlRows]
    split
    · next rows heq => exact absurd heq (h rows)
    · rfl

/-- C8 witness: the rules applied at concrete inputs. -/
theorem parseYamlRows_rules_witness :
    parseYamlRows (some (.vObj [("rows", .vArr [.vNull])])) = [.vNull] ∧
    parseYamlRows (some (.vObj [("rows", .vStr "x")])) = [.vObj [("rows", .vStr "x")]] :=
  ⟨parseYamlRows_rules.2.1 [("rows", .vArr [.vNull])] [.vNull] rfl,
   parseYamlRows_rules.2.2.1 [("rows", .vStr "x")] (fun rows h => by simp at h)⟩

/-- C2: typed-cast parameter formatting: null is NULL, booleans are
`TRUE::BOOLEAN`/`FALSE::BOOLEAN`, a number whose parameter name contains
"order", or contains "id" but not "uuid", is cast `::INTEGER`, and any other
number is `::INTEGER` exactly when it is an integer value and `::NUMERIC`
otherwise; the row `{active: true, count: 3}` against function `f` produces
the statement `SELECT f(TRUE::BOOLEAN, 3::INTEGER);` with the parameters in
the row's key order. -/
theorem formatParam_typed_casts :
    (∀ cn, formatParam .vNull cn = "NULL") ∧
    (∀ b cn, formatParam (.vBool b) cn = (if b then "TRUE::BOOLEAN" else "FALSE::BOOLEAN")) ∧
    (∀ (q : ℚ) (name : String),
      (jsIncludes name "order" || (jsIncludes name "id" && !jsIncludes name "uuid")) = true →
      formatParam (.vNum q) (some name) = jsNumToString q ++ "::INTEGER") ∧
    (∀ (q : ℚ) (name : String),
      (jsIncludes name "order" || (jsIncludes name "id" && !jsIncludes name "uuid")) = false →
      formatParam (.vNum q) (some name) =
        (if jsIsInteger q then jsNumToString q ++ "::INTEGER" else jsNumToString q ++ "::NUMERIC")) ∧
    generateFunctionCalls [[("active", .vBool true), ("count", .vNum 3)]] "f" =
      "-- Generated from JSON data\nSELECT f(TRUE::BOOLEAN, 3::INTEGER);" := by
  refine ⟨fun cn => rfl, fun b cn => by cases b <;> rfl, ?_, ?_, by decide⟩
  · intro q name h
    have hne : ¬ (name = "") := by
      intro he
      subst he
      rw [show jsIncludes "" "order" = false from by decide,
        show jsIncludes "" "id" = false from by decide] at h
      simp at h
    rw [formatParam, columnHint]
    simp [hne, h]
  · intro q name h
    rw [formatParam, columnHint]
    by_cases hne : name = ""
    · subst hne; simp [h]
    · simp [hne, h]

/-- C2 witness: the number rules applied at concrete parameter names. -/
theorem formatParam_typed_casts_witness :
    formatParam (.vNum 7) (some "display_order") = jsNumToString 7 ++ "::INTEGER" ∧
    formatParam (.vNum (mkRat 5 2)) (some "count") =
      (if jsIsInteger (mkRat 5 2) then jsNumToString (mkRat 5 2) ++ "::INTEGER"
       else jsNumToString (mkRat 5 2) ++ "::NUMERIC") :=
  ⟨formatParam_typed_casts.2.2.1 7 "display_order" (by decide),
   formatParam_typed_casts.2.2.2.1 (mkRat 5 2) "count" (by decide)⟩

/-- C10: inside a plain (non-array) object, every nested value is formatted
by a recursive call that passes no parameter name, so the name-based
`::INTEGER` hint never applies inside `jsonb_build_object`: a nested number
is cast `::INTEGER` exactly when it is an integer and `::NUMERIC` otherwise,
whatever key it sits under. -/
theorem nested_object_params_no_hint :
    (∀ (fields : List (String × JsValue)) (cn : Option String), fields ≠ [] →
      formatParam (.vObj fields) cn =
        "jsonb_build_object(" ++ String.intercalate ", "
          (fields.map fun kv => "'" ++ escapeString kv.1 ++ "', " ++ formatParam kv.2 none) ++
        ")::JSONB") ∧
    (∀ cn, formatParam (.vObj []) cn = "jsonb_build_object()::JSONB") ∧
    (∀ q : ℚ, formatParam (.vNum q) none =
      (if jsIsInteger q then jsNumToString q ++ "::INTEGER" else jsNumToString q ++ "::NUMERIC")) := by
  refine ⟨?_, fun cn => rfl, fun q => by rw [formatParam, columnHint]; rfl⟩
  intro fields cn hne
  rw [formatParam, if_neg (by simpa using hne), formatParamEntries_map]

/-- C10 witness: a nested non-integer under an id-like key still casts
`::NUMERIC`. -/
theorem nested_object_params_no_hint_witness :
    formatParam (.vObj [("order_id", .vNum (mkRat 5 2))]) (some "order_id") =
      "jsonb_build_object('order_id', 2.5::NUMERIC)::JSONB" := by
  have h := nested_object_params_no_hint.1 [("order_id", .vNum (mkRat 5 2))] (some "order_id")
    (by simp)
  rw [h]
  decide

/-- C3: target detection tries `function:`, then `procedure:`, then `table:`,
and the first matching pattern determines the classification; in particular a
document whose text matches both the function and the table pattern is
classified as a function, never as a table. -/
theorem detectTarget_precedence :
    (∀ (text : String) (g : List Char), scanKey "function".data text.data = some g →
      detectTarget text = some (.function, jsTrim ⟨g⟩)) ∧
    (∀ (text : String) (g : List Char), scanKey "function".data text.data = none →
      scanKey "procedure".data text.data = some g →
      detectTarget text = some (.procedure, jsTrim ⟨g⟩)) ∧
    (∀ (text : String) (g : List Char), scanKey "function".data text.data = none →
      scanKey "procedure".data text.data = none →
      scanKey "table".data text.data = some g →
      detectTarget text = some (.table, jsTrim ⟨g⟩)) ∧
    (∀ text : String, scanKey "function".data text.data = none →
      scanKey "procedure".data text.data = none →
      scanKey "table".data text.data = none → detectTarget text = none) ∧
    (∀ (text : String) (g g' : List Char), scanKey "function".data text.data = some g →
      scanKey "table".data text.data = some g' →
      ∀ n, detectTarget text ≠ some (.table, n)) := by
  have h1 : ∀ (text : String) (g : List Char), scanKey "function".data text.data = some g →
      detectTarget text = some (.function, jsTrim ⟨g⟩) := by
    intro text g h
    simp only [detectTarget, h]
  refine ⟨h1, ?_, ?_, ?_, ?_⟩
  · intro text g h hp
    simp only [detectTarget, h, hp]
  · intro text g h hp ht
    simp only [detectTarget, h, hp, ht]
  · intro text h hp ht
    simp only [detectTarget, h, hp, ht]
  · intro text g g' h ht n habs
    rw [h1 text g h] at habs
    have := (Option.some.injEq _ _).mp habs
    exact TargetType.noConfusion (congrArg Prod.fst this)

/-- C3 witness: a document containing both a `function:` line and a `table:`
line is classified as a function. -/
theorem detectTarget_precedence_witness :
    detectTarget "function: f\ntable: t" = some (.function, jsTrim ⟨"f".data⟩) ∧
    ∀ n, detectTarget "function: f\ntable: t" ≠ some (.table, n) :=
  ⟨detectTarget_precedence.1 "function: f\ntable: t" "f".data (by decide),
   detectTarget_precedence.2.2.2.2 "function: f\ntable: t" "f".data "t".data
     (by decide) (by decide)⟩

/-- C6 counterexample: a document with a detected table target and an empty
row list generates the single comment `-- No rows to insert`, which does not
begin with `-- Generated from JSON data`. -/
theorem generated_sql_header_empty_rows :
    detectTarget "table: t\nrows: []\n" = some (.table, "t") ∧
    parseYamlRows (some (.vObj [("table", .vStr "t"), ("rows", .vArr [])])) = [] ∧
    jsonToSql [] "t" .table = "-- No rows to insert" ∧
    List.isPrefixOf "-- Generated from JSON data".data (jsonToSql [] "t" .table).data = false := by
  refine ⟨by decide, rfl, rfl, by decide⟩

/-- C6 (amended): the generated SQL text begins with the line
`-- Generated from JSON data` whenever the extracted row list is non-empty;
an empty row list instead produces exactly `-- No rows to insert`. -/
theorem generated_sql_header (rows : List RowRec) (name : String) (type : TargetType)
    (h : rows ≠ []) :
    ∃ rest, jsonToSql rows name type = "-- Generated from JSON data\n" ++ rest := by
  match rows with
  | r :: rs =>
    cases type with
    | function => exact ⟨_, rfl⟩
    | procedure => exact ⟨_, rfl⟩
    | table =>
      exact ⟨String.intercalate "\n"
          ["INSERT INTO " ++ name ++ " (" ++ String.intercalate ", " (rowKeys r) ++ ") VALUES",
           String.intercalate ",\n" ((r :: rs).map fun row =>
             "(" ++ String.intercalate ", " ((rowKeys r).map fun col =>
               toSqlLiteral (rowGet row col) (some col)) ++ ")"),
           "ON CONFLICT (" ++ (rowKeys r).headD "undefined" ++ ") DO UPDATE SET",
           String.intercalate ",\n" ((rowKeys r).tail.map fun col =>
             "    " ++ col ++ " = COALESCE(EXCLUDED." ++ col ++ ", " ++ name ++ "." ++ col ++ ")") ++ ";"],
        by
          show generateInsert (r :: rs) name = _
          rw [generateInsert, intercalate_cons_cons]
          rw [show ("-- Generated from JSON data" ++ "\n" : String) = "-- Generated from JSON data\n" from rfl]
          rfl⟩

/-- C6 witness: the header on a concrete one-row table document. -/
theorem generated_sql_header_witness :
    ∃ rest, jsonToSql [[("id", .vNum 1)]] "t" .table =
      "-- Generated from JSON data\n" ++ rest :=
  generated_sql_header [[("id", .vNum 1)]] "t" .table (List.cons_ne_nil _ _)

/-- C9 counterexample: the spec's case-insensitive suffix rule admits
`0.SQL`, but the code's `endsWith` test is case-sensitive and excludes it. -/
theorem getSortedSqlFiles_case_sensitive :
    specCombinedIncludes "public" "0.SQL" = true ∧
    getSortedSqlFiles ["0.SQL"] "public" = [] := by
  constructor
  · decide
  · rw [getSortedSqlFiles,
      show List.filter (sqlFileKeep "public") ["0.SQL"] = [] from by decide]
    exact List.mergeSort_nil

/-- C9 (amended): the combined-artifact file list keeps exactly the names
that do not start with the schema name, end with `.sql` or `.ddl`
case-sensitively, and contain a digit, ordered by plain lexicographic
sort. -/
theorem getSortedSqlFiles_selection (names : List String) (schema : String) :
    (getSortedSqlFiles names schema).Perm (names.filter (sqlFileKeep schema)) ∧
    List.Sorted (· ≤ ·) (getSortedSqlFiles names schema) ∧
    (∀ f, sqlFileKeep schema f =
      (!schema.data.isPrefixOf f.data &&
       (List.isSuffixOf ".sql".data f.data || List.isSuffixOf ".ddl".data f.data) &&
       f.data.any Char.isDigit)) := by
  refine ⟨List.mergeSort_perm _ _, ?_, fun f => rfl⟩
  exact List.sorted_mergeSort' _

/-- C7: the table-literal formatter prints literals denoting the same value
for null, booleans and (finite-decimal) numbers — no round-trip loss — and
for every string, undoing the doubled-single-quote escape returns exactly the
original string. -/
theorem literal_roundtrip :
    (∀ col, sqlLiteralValue (toSqlLiteral .vNull col) = some .vNull) ∧
    (∀ b col, sqlLiteralValue (toSqlLiteral (.vBool b) col) = some (.vBool b)) ∧
    (∀ (q : ℚ) col, (decExp q.den).isSome = true →
      sqlLiteralValue (toSqlLiteral (.vNum q) col) = some (.vNum q)) ∧
    (∀ s : String, (⟨undoubleQuotes (escapeString s).data⟩ : String) = s) := by
  refine ⟨fun col => rfl, fun b col => by cases b <;> rfl, ?_, ?_⟩
  · intro q col h
    rw [show toSqlLiteral (.vNum q) col = jsNumToString q from rfl]
    exact sqlLiteralValue_num q h
  · intro s
    show String.mk (undoubleQuotes (escapeChars s.data)) = s
    rw [undouble_escape]

/-- C7 witness: the number round trip at the non-integer value 5/2. -/
theorem literal_roundtrip_witness :
    (decExp (mkRat 5 2).den).isSome = true ∧
    sqlLiteralValue (toSqlLiteral (.vNum (mkRat 5 2)) none) = some (.vNum (mkRat 5 2)) :=
  ⟨by decide, literal_roundtrip.2.2.1 (mkRat 5 2) none (by decide)⟩

/-- C4 counterexample: with `A` set to `$B` and `B` set to `z`, the
placeholder `${A}` is not replaced by exactly the value `$B`: the inserted
value is rescanned by the later `$NAME` pass and the output is `z`. -/
theorem substituteEnvVars_value_rescanned :
    (fun n => if n = "A" then some "$B" else if n = "B" then some "z" else none : EnvMap)
      "A" = some "$B" ∧
    substituteEnvVars
      (fun n => if n = "A" then some "$B" else if n = "B" then some "z" else none) "${A}" = "z" ∧
    ("z" : String) ≠ "$B" :=
  ⟨rfl, by decide, by decide⟩

/-- C4 (amended): environment substitution is total (never throws); for each
of the three placeholder forms, an unset variable leaves the placeholder text
verbatim in the output; a set variable (including one set to the empty
string) replaces the placeholder with its value, which the remaining passes
then rescan — so the value is inserted exactly whenever it contains no
further placeholder trigger (no `{` and no `$` for `${NAME}`; no `$` for
`{NAME}`; unconditionally for the bare `$NAME`, whose pass runs last). -/
theorem substituteEnvVars_placeholder_behaviour :
    (∀ (env : EnvMap) (name : List Char), name ≠ [] →
      (∀ c ∈ name, isIdentRest c = true) → env ⟨name⟩ = none →
      substituteEnvVars env ⟨'$' :: '\x7b' :: (name ++ ['\x7d'])⟩ =
        ⟨'$' :: '\x7b' :: (name ++ ['\x7d'])⟩) ∧
    (∀ (env : EnvMap) (d : Char) (ds : List Char), isUpperFirst d = true →
      (∀ c ∈ ds, isUpperRest c = true) → env ⟨d :: ds⟩ = none →
      substituteEnvVars env ⟨'\x7b' :: ((d :: ds) ++ ['\x7d'])⟩ =
        ⟨'\x7b' :: ((d :: ds) ++ ['\x7d'])⟩) ∧
    (∀ (env : EnvMap) (d : Char) (ds : List Char), isIdentFirst d = true →
      (∀ c ∈ ds, isIdentRest c = true) → env ⟨d :: ds⟩ = none →
      substituteEnvVars env ⟨'$' :: d :: ds⟩ = ⟨'$' :: d :: ds⟩) ∧
    (∀ (env : EnvMap) (name : List Char) (v : String), name ≠ [] →
      (∀ c ∈ name, isIdentRest c = true) → env ⟨name⟩ = some v →
      (∀ c ∈ v.data, c ≠ '\x7b') → (∀ c ∈ v.data, c ≠ '$') →
      substituteEnvVars env ⟨'$' :: '\x7b' :: (name ++ ['\x7d'])⟩ = v) ∧
    (∀ (env : EnvMap) (d : Char) (ds : List Char) (v : String), isUpperFirst d = true →
      (∀ c ∈ ds, isUpperRest c = true) → env ⟨d :: ds⟩ = some v →
      (∀ c ∈ v.data, c ≠ '$') →
      substituteEnvVars env ⟨'\x7b' :: ((d :: ds) ++ ['\x7d'])⟩ = v) ∧
    (∀ (env : EnvMap) (d : Char) (ds : List Char) (v : String), isIdentFirst d = true →
      (∀ c ∈ ds, isIdentRest c = true) → env ⟨d :: ds⟩ = some v →
      substituteEnvVars env ⟨'$' :: d :: ds⟩ = v) ∧
    (∀ (env : EnvMap) (s : String),
      processEnvVars env (.vStr s) = .vStr (substituteEnvVars env s)) :=
  ⟨substitute_dollarBrace_unset, substitute_brace_unset, substitute_dollar_unset,
   substitute_dollarBrace_set, substitute_brace_set, substitute_dollar_set,
   fun _ _ => rfl⟩

/-- C4 witness: the three forms at concrete names — unset `${MISSING}` stays
verbatim, `$HOME` set to `/root` substitutes exactly, and a variable set to
the empty string substitutes the empty string. -/
theorem substituteEnvVars_placeholder_witness :
    substituteEnvVars (fun _ => none) "${MISSING}" = "${MISSING}" ∧
    substituteEnvVars (fun n => if n = "HOME" then some "/root" else none) "$HOME" = "/root" ∧
    substituteEnvVars (fun n => if n = "E" then some "" else none) "${E}" = "" := by
  refine ⟨?_, ?_, ?_⟩
  · have h := substituteEnvVars_placeholder_behaviour.1 (fun _ => none) "MISSING".data
      (by decide) (by decide) rfl
    exact h
  · have h := substituteEnvVars_placeholder_behaviour.2.2.2.2.2.1
      (fun n => if n = "HOME" then some "/root" else none) 'H' "OME".data "/root"
      (by decide) (by decide) (by decide)
    exact h
  · have h := substituteEnvVars_placeholder_behaviour.2.2.2.1
      (fun n => if n = "E" then some "" else none) "E".data ""
      (by decide) (by decide) (by decide) (by decide) (by decide)
    exact h
